import Mathlib

/-!
Verification of the OBD-II serial stream parser (`src/lib/parser.js`).

Strings are modelled as `List Char`, and each JavaScript string operation
used by the parser is translated individually:

* `String.prototype.replace` with a plain-string pattern replaces only the
  first occurrence (`removeFirstChar`);
* `replace(/\n/g, '')` and `replace(/ /g, '')` are global filters;
* `replace(/\\r/g, '\r')` rewrites each literal backslash-r digram
  (`replaceEscCR`);
* `split(/\r/g)` keeps empty segments, so it always returns a non-empty
  list of segments (`splitOnChar`);
* `match(/.{1,2}/g)` scans left to right, greedily taking two characters
  when possible; the regex `.` does not match the line terminators
  `\n`, `\r`, U+2028, U+2029, and a match call with zero matches returns
  `null`, modelled as `none` (`chunkPairs`, `getByteGroupings`);
* `trim()` strips leading and trailing whitespace (`jsTrim`).

The `ParseResult` record keeps the `value`, `raw`, `byteGroups` and
`error` fields of the object built by `parseObdString`; the wall-clock
`ts` field is omitted, every statement below is about the other fields.
The PID registry (`pids.getBy`) and each descriptor's `convertBytes`
are external collaborators and are modelled as parameters: a registry is
any function from a pid token to an optional descriptor.
-/

/-- Modelled from the spec: the `./constants` module is not among the
sources. §6 defines `PROMPT_DELIMITER` (the source's
`OBD_OUTPUT_DELIMETER`) as the single terminator character the adapter
appends after a response, written `>` in every spec example. -/
def OBD_OUTPUT_DELIMETER : Char := '>'

/-- Modelled from the spec: the `./constants` module is not among the
sources. §6 and the glossary define `RESPONSE_MODE_MARKER` (the source's
`OBD_OUTPUT_MESSAGE_TYPES.MODE_01`) as the two-hex-digit code `41` of a
supported current-data response. -/
def MODE_01 : List Char := ['4', '1']

/-- The characters removed by JavaScript `trim()` that can occur in this
byte-oriented protocol (ASCII whitespace). -/
def isJsSpace (c : Char) : Bool :=
  decide (c ∈ [' ', '\t', '\n', '\r', '\x0B', '\x0C'])

/-- JavaScript `trim()`: drop leading and trailing whitespace. -/
def jsTrim (l : List Char) : List Char :=
  ((l.dropWhile isJsSpace).reverse.dropWhile isJsSpace).reverse

/-- JavaScript `s.replace(c, '')` for a one-character string pattern:
only the first occurrence is removed. -/
def removeFirstChar (c : Char) : List Char → List Char
  | [] => []
  | a :: rest => if a = c then rest else a :: removeFirstChar c rest

/-- JavaScript `s.replace(/\\r/g, '\r')`: every literal two-character
backslash-r digram becomes a carriage return, scanning left to right. -/
def replaceEscCR : List Char → List Char
  | [] => []
  | [a] => [a]
  | a :: b :: rest =>
    if a = '\\' ∧ b = 'r' then '\r' :: replaceEscCR rest
    else a :: replaceEscCR (b :: rest)

/-- JavaScript `s.split(/c/g)` for a single character: empty segments are
kept, so the result is always non-empty. -/
def splitOnChar (c : Char) : List Char → List (List Char)
  | [] => [[]]
  | a :: rest =>
    if a = c then [] :: splitOnChar c rest
    else
      match splitOnChar c rest with
      | [] => [[a]]
      | s :: ss => (a :: s) :: ss

/-- The per-segment cleanup of `extractOutputStrings` (parser.js:90-95):
strip the first occurrence of the prompt delimiter, remove all spaces,
then trim. -/
def cleanSegment (seg : List Char) : List Char :=
  jsTrim ((removeFirstChar OBD_OUTPUT_DELIMETER seg).filter (fun c => decide (c ≠ ' ')))

/-- `extractOutputStrings` (parser.js:80-103): remove line feeds, decode
literal backslash-r digrams, split on carriage return, clean each
segment, and drop segments that became empty (lodash `_.filter` with no
predicate keeps only truthy, hence non-empty, strings). -/
def extractOutputStrings (buffer : List Char) : List (List Char) :=
  let cmds := splitOnChar '\r' (replaceEscCR (buffer.filter (fun c => decide (c ≠ '\n'))))
  (cmds.map cleanSegment).filter (fun c => decide (c ≠ []))

/-- One character of the regex class `[0-9A-F]` (code-point ranges). -/
def isHexChar (c : Char) : Bool :=
  decide (('0' ≤ c ∧ c ≤ '9') ∨ ('A' ≤ c ∧ c ≤ 'F'))

/-- `isHex` (parser.js:112-114): `str.match(/^[0-9A-F]+$/)` — anchored,
one or more characters of the class. -/
def isHex (str : List Char) : Bool :=
  decide (str ≠ []) && str.all isHexChar

/-- Whether the regex `.` matches a character: everything except the
JavaScript line terminators. -/
def isDotChar (c : Char) : Bool :=
  decide (c ≠ '\n' ∧ c ≠ '\r' ∧ c ≠ '\u2028' ∧ c ≠ '\u2029')

/-- The scan of `match(/.{1,2}/g)`: greedy pairs left to right, a
non-matching position is skipped. -/
def chunkPairs : List Char → List (List Char)
  | [] => []
  | [a] => if isDotChar a then [[a]] else []
  | a :: b :: rest =>
    if isDotChar a then
      if isDotChar b then [a, b] :: chunkPairs rest
      else [a] :: chunkPairs (b :: rest)
    else chunkPairs (b :: rest)

/-- `getByteGroupings` (parser.js:122-127): remove spaces and take the
byte groups as pairs; `match` returns `null` when there is no match. -/
def getByteGroupings (str : List Char) : Option (List (List Char)) :=
  let groups := chunkPairs (str.filter (fun c => decide (c ≠ ' ')))
  if groups = [] then none else some groups

/-- The error taxonomy of §7, the `VError` values built by
`parseObdString` and `parseRealTime` plus the errors a converter may
itself return. -/
inductive VErr where
  | unsupportedMode (byteGroups : List (List Char))
  | noConverter (pid : List Char)
  | conversion (msg : List Char)
deriving DecidableEq

/-- The record built by `parseObdString` (parser.js:140-145), without the
wall-clock `ts` field. -/
structure ParseResult where
  value : Option Int
  raw : List Char
  byteGroups : Option (List (List Char))
  error : Option VErr
deriving DecidableEq

/-- A PID descriptor as used by `parseRealTime`: the declared byte count
and the byte-to-value converter, which may itself return an error value
(`parsed instanceof VError`). -/
structure PidInfo where
  byteCount : Nat
  convertBytes : List (List Char) → Except VErr Int

/-- The external `pids.getBy('pid', ·)` lookup. -/
def PidRegistry : Type := List Char → Option PidInfo

/-- JavaScript `Array.prototype.slice(start, stop)` for non-negative
arguments. -/
def jsSlice (start stop : Nat) (l : List (List Char)) : List (List Char) :=
  (l.take stop).drop start

/-- `parseRealTime` (parser.js:182-196). -/
def parseRealTime (reg : PidRegistry) (byteGroups : List (List Char)) : Except VErr Int :=
  match reg (byteGroups.getD 1 []) with
  | some pidInfo => pidInfo.convertBytes (jsSlice 2 pidInfo.byteCount byteGroups)
  | none => Except.error (VErr.noConverter (byteGroups.getD 1 []))

/-- `parseObdString` (parser.js:135-174). -/
def parseObdString (reg : PidRegistry) (str : List Char) : ParseResult :=
  let byteGroups := getByteGroupings str
  let ret : ParseResult :=
    { value := none, raw := str, byteGroups := byteGroups, error := none }
  if isHex str = false then ret
  else
    let groups := byteGroups.getD []
    if groups.headD [] = MODE_01 then
      match parseRealTime reg groups with
      | Except.ok v => { ret with value := some v }
      | Except.error e => { ret with error := some e }
    else { ret with error := some (VErr.unsupportedMode groups) }

/-- `hasPrompt` (parser.js:69-72): `indexOf(delimiter) !== -1`. -/
def hasPrompt (data : List Char) : Bool :=
  decide (OBD_OUTPUT_DELIMETER ∈ data)

/-- The results emitted for one completed frame (parser.js:46-48). -/
def frameResults (reg : PidRegistry) (buffer : List Char) : List ParseResult :=
  (extractOutputStrings buffer).map (parseObdString reg)

/-- One `_transform` call (parser.js:27-56) on an explicit buffer state:
append the chunk, and if the buffer now holds the prompt delimiter,
parse every extracted command string and reset the buffer (`_flush`,
parser.js:58-61); otherwise keep the buffer and emit nothing. Returns
the new buffer and the emitted `ParseResult`s. -/
def feed (reg : PidRegistry) (buffer chunk : List Char) : List Char × List ParseResult :=
  let b := buffer ++ chunk
  if hasPrompt b then ([], frameResults reg b) else (b, [])

/-- Iterate `feed` over a list of chunks, collecting emitted results in
order. -/
def feedAll (reg : PidRegistry) (buffer : List Char) :
    List (List Char) → List Char × List ParseResult
  | [] => (buffer, [])
  | c :: cs =>
    let step := feed reg buffer c
    let rest := feedAll reg step.1 cs
    (rest.1, step.2 ++ rest.2)

/-- A frame made of lines separated by single carriage returns. -/
def joinCR : List (List Char) → List Char
  | [] => []
  | [l] => l
  | l :: ls => l ++ '\r' :: joinCR ls

/-- Modelled from the spec's words (§4.4), for comparison with
`getByteGroupings`: "splitting into maximal runs of 2 characters
left-to-right; a final run of length 1 is permitted". -/
def specMaximalRuns : List Char → List (List Char)
  | [] => []
  | [a] => [[a]]
  | a :: b :: rest => [a, b] :: specMaximalRuns rest

/-- The sixteen characters the spec calls the uppercase hex digits
`0-9A-F`. -/
def upperHexDigits : List Char :=
  ['0', '1', '2', '3', '4', '5', '6', '7', '8', '9', 'A', 'B', 'C', 'D', 'E', 'F']

/-- A concrete registry for witness statements: one descriptor under pid
`0C` with declared byte count 4 and a converter returning the number of
payload bytes it received. -/
def rpmInfo : PidInfo :=
  { byteCount := 4, convertBytes := fun bytes => Except.ok (bytes.length : Int) }

/-- The lookup function of the witness registry. -/
def sampleRegistry : PidRegistry :=
  fun pid => if pid = ['0', 'C'] then some rpmInfo else none

theorem char_le_iff (a b : Char) : a ≤ b ↔ a.toNat ≤ b.toNat := by
  simp [Char.le_def, UInt32.le_def, BitVec.le_def, Char.toNat, UInt32.toNat]

theorem isHexChar_iff_mem (c : Char) : isHexChar c = true ↔ c ∈ upperHexDigits := by
  rw [isHexChar, decide_eq_true_iff]
  constructor
  · have h3 := Char.ofNat_toNat c
    rintro (⟨h1, h2⟩ | ⟨h1, h2⟩) <;> rw [char_le_iff] at h1 h2
    · have e1 : ('0' : Char).toNat = 48 := rfl
      have e2 : ('9' : Char).toNat = 57 := rfl
      rw [e1] at h1
      rw [e2] at h2
      interval_cases h : c.toNat <;> rw [← h3] <;> decide
    · have e1 : ('A' : Char).toNat = 65 := rfl
      have e2 : ('F' : Char).toNat = 70 := rfl
      rw [e1] at h1
      rw [e2] at h2
      interval_cases h : c.toNat <;> rw [← h3] <;> decide
  · intro h
    rw [upperHexDigits] at h
    simp only [List.mem_cons, List.not_mem_nil, or_false] at h
    rcases h with rfl | rfl | rfl | rfl | rfl | rfl | rfl | rfl | rfl | rfl | rfl | rfl |
      rfl | rfl | rfl | rfl <;> decide

theorem chunkPairs_eq_runs :
    ∀ (l : List Char), (∀ c ∈ l, isDotChar c = true) → chunkPairs l = specMaximalRuns l
  | [], _ => rfl
  | [a], h => by
    simp [chunkPairs, specMaximalRuns, h a (by simp)]
  | a :: b :: rest, h => by
    have ha := h a (by simp)
    have hb := h b (by simp)
    have hr := chunkPairs_eq_runs rest (fun c hc => h c (by simp [hc]))
    simp [chunkPairs, specMaximalRuns, ha, hb, hr]

theorem specMaximalRuns_ne_nil : ∀ (l : List Char), l ≠ [] → specMaximalRuns l ≠ []
  | [], h => absurd rfl h
  | [_], _ => by simp [specMaximalRuns]
  | _ :: _ :: _, _ => by simp [specMaximalRuns]

theorem specMaximalRuns_flatten : ∀ (l : List Char), (specMaximalRuns l).flatten = l
  | [] => rfl
  | [_] => rfl
  | _ :: _ :: rest => by simp [specMaximalRuns, specMaximalRuns_flatten rest]

theorem specMaximalRuns_dropLast_length :
    ∀ (l : List Char), ∀ t ∈ (specMaximalRuns l).dropLast, t.length = 2
  | [] => by simp [specMaximalRuns]
  | [_] => by simp [specMaximalRuns]
  | a :: b :: rest => by
    intro t ht
    rcases hr : rest with _ | ⟨x, xs⟩
    · subst hr
      simp [specMaximalRuns] at ht
    · subst hr
      rw [specMaximalRuns] at ht
      rw [List.dropLast_cons_of_ne_nil (specMaximalRuns_ne_nil (x :: xs) (by simp))] at ht
      rcases List.mem_cons.mp ht with rfl | ht'
      · rfl
      · exact specMaximalRuns_dropLast_length (x :: xs) t ht'

theorem specMaximalRuns_getLast_length :
    ∀ (l : List Char), ∀ t, (specMaximalRuns l).getLast? = some t →
      t.length = if l.length % 2 = 1 then 1 else 2
  | [] => by simp [specMaximalRuns]
  | [a] => by
    intro t ht
    simp [specMaximalRuns] at ht
    subst ht
    rfl
  | a :: b :: rest => by
    intro t ht
    rcases hr : rest with _ | ⟨x, xs⟩
    · subst hr
      simp [specMaximalRuns] at ht
      subst ht
      simp
    · subst hr
      rw [specMaximalRuns] at ht
      have hne := specMaximalRuns_ne_nil (x :: xs) (by simp)
      rcases hsr : specMaximalRuns (x :: xs) with _ | ⟨r, rs⟩
      · exact absurd hsr hne
      · rw [hsr, List.getLast?_cons_cons] at ht
        have hlen := specMaximalRuns_getLast_length (x :: xs) t (by rw [hsr]; exact ht)
        have hp : (a :: b :: x :: xs).length % 2 = (x :: xs).length % 2 := by
          simp [List.length_cons]
          omega
        rw [hp]
        exact hlen

/-- C7: for every string `s`, `isHex s` is true if and only if `s` is
non-empty and every character of `s` is one of the uppercase hex digits
`0-9A-F`; in particular any string with a character outside that set
(lowercase, punctuation, ...) is rejected. -/
theorem isHex_iff_upperHex (s : List Char) :
    isHex s = true ↔ s ≠ [] ∧ ∀ c ∈ s, c ∈ upperHexDigits := by
  rw [isHex, Bool.and_eq_true, decide_eq_true_iff, List.all_eq_true]
  constructor
  · rintro ⟨h1, h2⟩
    exact ⟨h1, fun c hc => (isHexChar_iff_mem c).mp (h2 c hc)⟩
  · rintro ⟨h1, h2⟩
    exact ⟨h1, fun c hc => (isHexChar_iff_mem c).mpr (h2 c hc)⟩

/-- Witness for C7 at the concrete input `41`. -/
theorem isHex_iff_upperHex_witness : isHex ['4', '1'] = true :=
  (isHex_iff_upperHex ['4', '1']).mpr ⟨by decide, by decide⟩

/-- C8 counterexample: on the input `" A"` the byte grouper does not
split the string into maximal runs of two characters (which would be
`[" A"]`): it first removes the space and returns `["A"]`. -/
theorem getByteGroupings_not_runs_on_space :
    getByteGroupings [' ', 'A'] = some [['A']] ∧
    getByteGroupings [' ', 'A'] ≠ some (specMaximalRuns [' ', 'A']) := by
  decide

/-- C8 (amended): for every non-empty string `s` containing no space and
no line-terminator character, `getByteGroupings s` splits `s` into
maximal runs of 2 characters taken left to right, a final run of length
1 being permitted when the length of `s` is odd; in particular
`group("1B56") = ["1B","56"]` and `group("1B5") = ["1B","5"]`. -/
theorem getByteGroupings_maximal_runs (s : List Char) (h1 : s ≠ [])
    (h2 : ∀ c ∈ s, c ≠ ' ' ∧ isDotChar c = true) :
    getByteGroupings s = some (specMaximalRuns s) ∧
    getByteGroupings ['1', 'B', '5', '6'] = some [['1', 'B'], ['5', '6']] ∧
    getByteGroupings ['1', 'B', '5'] = some [['1', 'B'], ['5']] := by
  refine ⟨?_, by decide, by decide⟩
  have hf : s.filter (fun c => decide (c ≠ ' ')) = s :=
    List.filter_eq_self.mpr (fun c hc => by simpa using (h2 c hc).1)
  simp only [getByteGroupings]
  rw [hf, chunkPairs_eq_runs s (fun c hc => (h2 c hc).2),
    if_neg (specMaximalRuns_ne_nil s h1)]

/-- Witness for C8 (amended) at the concrete input `1B56`. -/
theorem getByteGroupings_maximal_runs_witness :
    getByteGroupings ['1', 'B', '5', '6'] = some (specMaximalRuns ['1', 'B', '5', '6']) ∧
    getByteGroupings ['1', 'B', '5', '6'] = some [['1', 'B'], ['5', '6']] ∧
    getByteGroupings ['1', 'B', '5'] = some [['1', 'B'], ['5']] :=
  getByteGroupings_maximal_runs ['1', 'B', '5', '6'] (by decide) (by decide)

/-- C9: the splitter strips only the first occurrence of the prompt
delimiter within each carriage-return-separated segment: the frame
`A>B>` yields the single command string `AB>`, which still contains the
delimiter. -/
theorem extract_strips_only_first_delimiter :
    extractOutputStrings ['A', '>', 'B', '>'] = [['A', 'B', '>']] ∧
    OBD_OUTPUT_DELIMETER ∈ ['A', 'B', '>'] := by
  decide

/-- C10 counterexample: the single-space string is non-empty, yet
`getByteGroupings` returns `none` on it rather than a token sequence
concatenating to its despaced content. -/
theorem getByteGroupings_none_on_blank :
    ([' '] : List Char) ≠ [] ∧ getByteGroupings [' '] = none := by
  decide

/-- C10 (amended): for every string `s` of non-line-terminator
characters, if `s` despaces to a non-empty string then the returned
tokens concatenate, in order, to `s` with all spaces removed, every
token has length 2 except possibly the last, whose length is 1 exactly
when the despaced length is odd; and if `s` despaces to the empty string
(in particular for the empty string) the function returns `none` rather
than an empty sequence. -/
theorem byteGroupings_roundtrip (s : List Char)
    (hdot : ∀ c ∈ s, isDotChar c = true) :
    (s.filter (fun c => decide (c ≠ ' ')) ≠ [] →
      ∃ rs, getByteGroupings s = some rs ∧
        rs.flatten = s.filter (fun c => decide (c ≠ ' ')) ∧
        (∀ t ∈ rs.dropLast, t.length = 2) ∧
        ∀ t, rs.getLast? = some t →
          t.length =
            if (s.filter (fun c => decide (c ≠ ' '))).length % 2 = 1 then 1 else 2) ∧
    (s.filter (fun c => decide (c ≠ ' ')) = [] → getByteGroupings s = none) := by
  have hdot' : ∀ c ∈ s.filter (fun c => decide (c ≠ ' ')), isDotChar c = true :=
    fun c hc => hdot c (List.mem_of_mem_filter hc)
  constructor
  · intro hne
    refine ⟨specMaximalRuns (s.filter (fun c => decide (c ≠ ' '))), ?_, ?_, ?_, ?_⟩
    · simp only [getByteGroupings]
      rw [chunkPairs_eq_runs _ hdot', if_neg (specMaximalRuns_ne_nil _ hne)]
    · exact specMaximalRuns_flatten _
    · exact specMaximalRuns_dropLast_length _
    · exact fun t ht => specMaximalRuns_getLast_length _ t ht
  · intro hnil
    simp only [getByteGroupings]
    rw [hnil]
    rfl

/-- Witness for C10 (amended) at the concrete input `1B 5`. -/
theorem byteGroupings_roundtrip_witness :
    ((['1', 'B', ' ', '5'] : List Char).filter (fun c => decide (c ≠ ' ')) ≠ [] →
      ∃ rs, getByteGroupings ['1', 'B', ' ', '5'] = some rs ∧
        rs.flatten = (['1', 'B', ' ', '5'] : List Char).filter (fun c => decide (c ≠ ' ')) ∧
        (∀ t ∈ rs.dropLast, t.length = 2) ∧
        ∀ t, rs.getLast? = some t →
          t.length =
            if ((['1', 'B', ' ', '5'] : List Char).filter
                (fun c => decide (c ≠ ' '))).length % 2 = 1 then 1 else 2) ∧
    ((['1', 'B', ' ', '5'] : List Char).filter (fun c => decide (c ≠ ' ')) = [] →
      getByteGroupings ['1', 'B', ' ', '5'] = none) :=
  byteGroupings_roundtrip ['1', 'B', ' ', '5'] (by decide)

/-- C2: after a feed whose accumulated buffer (previous buffer plus
chunk) holds no prompt delimiter, the buffer is exactly the previous
buffer with the chunk appended and nothing is emitted; after a feed
whose accumulated buffer does hold the delimiter, the buffer is empty. -/
theorem buffer_lifecycle (reg : PidRegistry) (buffer chunk : List Char) :
    (OBD_OUTPUT_DELIMETER ∉ buffer ++ chunk →
      feed reg buffer chunk = (buffer ++ chunk, [])) ∧
    (OBD_OUTPUT_DELIMETER ∈ buffer ++ chunk →
      (feed reg buffer chunk).1 = []) := by
  constructor <;> intro h <;> simp [feed, hasPrompt, h]

/-- Witness for C2: a retained incomplete feed and a cleared complete
feed at concrete inputs. -/
theorem buffer_lifecycle_witness :
    feed sampleRegistry ['4', '1'] ['0', 'C'] = (['4', '1', '0', 'C'], []) ∧
    (feed sampleRegistry ['4', '1'] ['0', 'C', '>']).1 = [] :=
  ⟨(buffer_lifecycle sampleRegistry ['4', '1'] ['0', 'C']).1 (by decide),
   (buffer_lifecycle sampleRegistry ['4', '1'] ['0', 'C', '>']).2 (by decide)⟩

/-- C4: a command string that is not hex decodes to a ParseResult with
no value and no error, `raw` equal to the command and `byteGroups`
populated from it; the single input `NODATA>` fed to the accumulator
yields exactly one such ParseResult with `raw = "NODATA"`. -/
theorem parse_generic_message (reg : PidRegistry) (cmd : List Char)
    (h : isHex cmd = false) :
    parseObdString reg cmd =
      { value := none, raw := cmd, byteGroups := getByteGroupings cmd, error := none } ∧
    (feedAll reg [] [['N', 'O', 'D', 'A', 'T', 'A', '>']]).2 =
      [{ value := none, raw := ['N', 'O', 'D', 'A', 'T', 'A'],
         byteGroups := some [['N', 'O'], ['D', 'A'], ['T', 'A']], error := none }] := by
  constructor
  · simp [parseObdString, h]
  · rfl

/-- Witness for C4 at the concrete non-hex command `NODATA`. -/
theorem parse_generic_message_witness :
    parseObdString sampleRegistry ['N', 'O', 'D', 'A', 'T', 'A'] =
      { value := none, raw := ['N', 'O', 'D', 'A', 'T', 'A'],
        byteGroups := getByteGroupings ['N', 'O', 'D', 'A', 'T', 'A'], error := none } ∧
    (feedAll sampleRegistry [] [['N', 'O', 'D', 'A', 'T', 'A', '>']]).2 =
      [{ value := none, raw := ['N', 'O', 'D', 'A', 'T', 'A'],
         byteGroups := some [['N', 'O'], ['D', 'A'], ['T', 'A']], error := none }] :=
  parse_generic_message sampleRegistry ['N', 'O', 'D', 'A', 'T', 'A'] (by decide)

/-- C5: a hex command whose first byte group is not the supported mode
marker decodes to a ParseResult whose error is `unsupportedMode`
carrying the byte groups and whose value is null; the input
`5512AB\r\r>` yields exactly that, with no exception (all functions
here are total) and no abort of later processing. -/
theorem parse_unsupported_mode (reg : PidRegistry) (cmd : List Char)
    (h1 : isHex cmd = true)
    (h2 : ((getByteGroupings cmd).getD []).headD [] ≠ MODE_01) :
    parseObdString reg cmd =
      { value := none, raw := cmd, byteGroups := getByteGroupings cmd,
        error := some (VErr.unsupportedMode ((getByteGroupings cmd).getD [])) } ∧
    (feedAll reg [] [['5', '5', '1', '2', 'A', 'B', '\r', '\r', '>']]).2 =
      [{ value := none, raw := ['5', '5', '1', '2', 'A', 'B'],
         byteGroups := some [['5', '5'], ['1', '2'], ['A', 'B']],
         error := some (VErr.unsupportedMode [['5', '5'], ['1', '2'], ['A', 'B']]) }] := by
  constructor
  · rw [List.headD_eq_head?_getD] at h2
    simp [parseObdString, h1, h2]
  · rfl

/-- Witness for C5 at the concrete command `5512AB`. -/
theorem parse_unsupported_mode_witness :
    parseObdString sampleRegistry ['5', '5', '1', '2', 'A', 'B'] =
      { value := none, raw := ['5', '5', '1', '2', 'A', 'B'],
        byteGroups := getByteGroupings ['5', '5', '1', '2', 'A', 'B'],
        error := some (VErr.unsupportedMode
          ((getByteGroupings ['5', '5', '1', '2', 'A', 'B']).getD [])) } ∧
    (feedAll sampleRegistry [] [['5', '5', '1', '2', 'A', 'B', '\r', '\r', '>']]).2 =
      [{ value := none, raw := ['5', '5', '1', '2', 'A', 'B'],
         byteGroups := some [['5', '5'], ['1', '2'], ['A', 'B']],
         error := some (VErr.unsupportedMode [['5', '5'], ['1', '2'], ['A', 'B']]) }] :=
  parse_unsupported_mode sampleRegistry ['5', '5', '1', '2', 'A', 'B'] (by decide) (by decide)

/-- C6: on a hex command whose first byte group is the mode marker, when
the pid has a registered descriptor the converter receives exactly the
byte groups at indices 2 up to (exclusive of) the descriptor's declared
`byteCount` — the slice is bounded by the declared count, not by the
length of the byte groups, so a shorter response passes fewer bytes;
when the pid has no descriptor the result carries `noConverter pid`. -/
theorem converter_slice_bound (reg : PidRegistry) (cmd : List Char) (pidInfo : PidInfo)
    (h1 : isHex cmd = true)
    (h2 : ((getByteGroupings cmd).getD []).headD [] = MODE_01) :
    (reg (((getByteGroupings cmd).getD []).getD 1 []) = some pidInfo →
      parseObdString reg cmd =
        (match pidInfo.convertBytes
            (jsSlice 2 pidInfo.byteCount ((getByteGroupings cmd).getD [])) with
         | Except.ok v =>
           { value := some v, raw := cmd, byteGroups := getByteGroupings cmd, error := none }
         | Except.error e =>
           { value := none, raw := cmd, byteGroups := getByteGroupings cmd,
             error := some e }) ∧
      (jsSlice 2 pidInfo.byteCount ((getByteGroupings cmd).getD [])).length =
        min pidInfo.byteCount ((getByteGroupings cmd).getD []).length - 2 ∧
      ∀ i, i < (jsSlice 2 pidInfo.byteCount ((getByteGroupings cmd).getD [])).length →
        (jsSlice 2 pidInfo.byteCount ((getByteGroupings cmd).getD [])).getD i [] =
          ((getByteGroupings cmd).getD []).getD (i + 2) []) ∧
    (reg (((getByteGroupings cmd).getD []).getD 1 []) = none →
      parseObdString reg cmd =
        { value := none, raw := cmd, byteGroups := getByteGroupings cmd,
          error := some (VErr.noConverter (((getByteGroupings cmd).getD []).getD 1 [])) }) := by
  have h2' := h2
  rw [List.headD_eq_head?_getD] at h2'
  constructor
  · intro hreg
    have hreg' := hreg
    rw [List.getD_eq_getElem?_getD] at hreg'
    refine ⟨?_, ?_, ?_⟩
    · cases hc : pidInfo.convertBytes
          (jsSlice 2 pidInfo.byteCount ((getByteGroupings cmd).getD [])) <;>
        simp [parseObdString, parseRealTime, h1, h2', hreg', hc]
    · simp [jsSlice, List.length_drop, List.length_take]
    · intro i hi
      rw [jsSlice, List.length_drop, List.length_take] at hi
      rw [jsSlice, List.getD_eq_getElem?_getD, List.getD_eq_getElem?_getD,
        List.getElem?_drop, List.getElem?_take_of_lt (by omega)]
      rw [Nat.add_comm 2 i]
  · intro hreg
    have hreg' := hreg
    rw [List.getD_eq_getElem?_getD] at hreg'
    simp [parseObdString, parseRealTime, h1, h2', hreg']

/-- Witness for C6: a registered pid with a declared byte count of 4 on
a five-group response (the converter sees exactly two payload groups),
and an unregistered pid. -/
theorem converter_slice_bound_witness :
    (parseObdString sampleRegistry ['4', '1', '0', 'C', '1', 'B', '5', '6', '2', '2'] =
      (match rpmInfo.convertBytes
          (jsSlice 2 rpmInfo.byteCount
            ((getByteGroupings ['4', '1', '0', 'C', '1', 'B', '5', '6', '2', '2']).getD [])) with
       | Except.ok v =>
         { value := some v, raw := ['4', '1', '0', 'C', '1', 'B', '5', '6', '2', '2'],
           byteGroups := getByteGroupings ['4', '1', '0', 'C', '1', 'B', '5', '6', '2', '2'],
           error := none }
       | Except.error e =>
         { value := none, raw := ['4', '1', '0', 'C', '1', 'B', '5', '6', '2', '2'],
           byteGroups := getByteGroupings ['4', '1', '0', 'C', '1', 'B', '5', '6', '2', '2'],
           error := some e }) ∧
      (jsSlice 2 rpmInfo.byteCount
        ((getByteGroupings ['4', '1', '0', 'C', '1', 'B', '5', '6', '2', '2']).getD [])).length =
        min rpmInfo.byteCount
          ((getByteGroupings ['4', '1', '0', 'C', '1', 'B', '5', '6', '2', '2']).getD []).length
            - 2 ∧
      ∀ i, i < (jsSlice 2 rpmInfo.byteCount
          ((getByteGroupings ['4', '1', '0', 'C', '1', 'B', '5', '6', '2', '2']).getD [])).length →
        (jsSlice 2 rpmInfo.byteCount
          ((getByteGroupings ['4', '1', '0', 'C', '1', 'B', '5', '6', '2', '2']).getD [])).getD
            i [] =
          ((getByteGroupings ['4', '1', '0', 'C', '1', 'B', '5', '6', '2', '2']).getD []).getD
            (i + 2) []) ∧
    parseObdString sampleRegistry ['4', '1', 'F', 'F'] =
      { value := none, raw := ['4', '1', 'F', 'F'],
        byteGroups := getByteGroupings ['4', '1', 'F', 'F'],
        error := some (VErr.noConverter
          (((getByteGroupings ['4', '1', 'F', 'F']).getD []).getD 1 [])) } :=
  ⟨(converter_slice_bound sampleRegistry
      ['4', '1', '0', 'C', '1', 'B', '5', '6', '2', '2'] rpmInfo
      (by decide) (by decide)).1 rfl,
   (converter_slice_bound sampleRegistry ['4', '1', 'F', 'F'] rpmInfo
      (by decide) (by decide)).2 rfl⟩

theorem mem_joinCR : ∀ (ls : List (List Char)) (c : Char),
    c ∈ joinCR ls → c = '\r' ∨ ∃ l ∈ ls, c ∈ l
  | [], c => by simp [joinCR]
  | [l], c => fun h => Or.inr ⟨l, by simp, by simpa [joinCR] using h⟩
  | l :: l' :: ls, c => fun h => by
    simp only [joinCR] at h
    rcases List.mem_append.mp h with h1 | h1
    · exact Or.inr ⟨l, by simp, h1⟩
    · rcases List.mem_cons.mp h1 with rfl | h2
      · exact Or.inl rfl
      · rcases mem_joinCR (l' :: ls) c h2 with h3 | ⟨m, hm, hc⟩
        · exact Or.inl h3
        · exact Or.inr ⟨m, List.mem_cons_of_mem l hm, hc⟩

theorem replaceEscCR_eq_self : ∀ (l : List Char), '\\' ∉ l → replaceEscCR l = l
  | [] => fun _ => rfl
  | [a] => fun _ => rfl
  | a :: b :: rest => fun h => by
    have ha : ¬(a = '\\' ∧ b = 'r') := by
      rintro ⟨rfl, -⟩
      exact h (by simp)
    rw [replaceEscCR, if_neg ha,
      replaceEscCR_eq_self (b :: rest) (fun hb => h (List.mem_cons_of_mem a hb))]

theorem splitOnChar_no_sep : ∀ (c : Char) (l : List Char), c ∉ l → splitOnChar c l = [l]
  | _, [] => fun _ => rfl
  | c, a :: rest => fun h => by
    have ha : a ≠ c := fun e => h (by simp [e])
    have hr := splitOnChar_no_sep c rest (fun hb => h (List.mem_cons_of_mem a hb))
    rw [splitOnChar, if_neg ha, hr]

theorem splitOnChar_append : ∀ (c : Char) (l rest : List Char), c ∉ l →
    splitOnChar c (l ++ c :: rest) = l :: splitOnChar c rest
  | c, [], rest => fun _ => by simp [splitOnChar]
  | c, a :: l', rest => fun h => by
    have ha : a ≠ c := fun e => h (by simp [e])
    have hr := splitOnChar_append c l' rest (fun hb => h (List.mem_cons_of_mem a hb))
    rw [List.cons_append, splitOnChar, if_neg ha, hr]

theorem splitOnChar_joinCR : ∀ (ls : List (List Char)),
    (∀ l ∈ ls, '\r' ∉ l) → ls ≠ [] → splitOnChar '\r' (joinCR ls) = ls
  | [], _, h => absurd rfl h
  | [l], h, _ => by
    simp only [joinCR]
    exact splitOnChar_no_sep '\r' l (h l (by simp))
  | l :: l' :: ls, h, _ => by
    simp only [joinCR]
    rw [splitOnChar_append '\r' l _ (h l (by simp)),
      splitOnChar_joinCR (l' :: ls) (fun m hm => h m (List.mem_cons_of_mem l hm)) (by simp)]

/-- C3: `extractOutputStrings` removes all line feeds, decodes each
literal backslash-r digram into a carriage return, splits on carriage
return, strips the prompt delimiter token, removes spaces, trims and
drops empty segments; consequently a frame of N carriage-return
separated lines, none of which cleans to empty, yields exactly the N
cleaned command strings in their order of arrival. -/
theorem extract_output_lines (ls : List (List Char))
    (h : ∀ l ∈ ls, '\n' ∉ l ∧ '\\' ∉ l ∧ '\r' ∉ l ∧ cleanSegment l ≠ []) :
    (∀ buffer, extractOutputStrings buffer =
      ((splitOnChar '\r' (replaceEscCR
        (buffer.filter (fun c => decide (c ≠ '\n'))))).map cleanSegment).filter
        (fun c => decide (c ≠ []))) ∧
    extractOutputStrings (joinCR ls) = ls.map cleanSegment ∧
    (ls.map cleanSegment).length = ls.length := by
  refine ⟨fun _ => rfl, ?_, by simp⟩
  rcases ls with _ | ⟨l, ls'⟩
  · rfl
  · have hnolf : ∀ c ∈ joinCR (l :: ls'), (fun c => decide (c ≠ '\n')) c = true := by
      intro c hc
      rw [decide_eq_true_iff]
      rcases mem_joinCR _ c hc with rfl | ⟨m, hm, hcm⟩
      · decide
      · intro e
        subst e
        exact (h m hm).1 hcm
    have hnobs : '\\' ∉ joinCR (l :: ls') := by
      intro hc
      rcases mem_joinCR _ '\\' hc with e | ⟨m, hm, hcm⟩
      · exact absurd e (by decide)
      · exact (h m hm).2.1 hcm
    simp only [extractOutputStrings]
    rw [List.filter_eq_self.mpr hnolf, replaceEscCR_eq_self _ hnobs,
      splitOnChar_joinCR _ (fun m hm => (h m hm).2.2.1) (by simp)]
    refine List.filter_eq_self.mpr ?_
    intro a ha
    rcases List.mem_map.mp ha with ⟨m, hm, rfl⟩
    rw [decide_eq_true_iff]
    exact (h m hm).2.2.2

/-- Witness for C3: a two-line frame, each line cleaning to itself. -/
theorem extract_output_lines_witness :
    (∀ buffer, extractOutputStrings buffer =
      ((splitOnChar '\r' (replaceEscCR
        (buffer.filter (fun c => decide (c ≠ '\n'))))).map cleanSegment).filter
        (fun c => decide (c ≠ []))) ∧
    extractOutputStrings
        (joinCR [['4', '1', '0', 'C', '1', 'B', '5', '6'], ['4', '1', '0', '5', '7', 'E']]) =
      [['4', '1', '0', 'C', '1', 'B', '5', '6'], ['4', '1', '0', '5', '7', 'E']].map
        cleanSegment ∧
    ([['4', '1', '0', 'C', '1', 'B', '5', '6'], ['4', '1', '0', '5', '7', 'E']].map
        cleanSegment).length =
      ([['4', '1', '0', 'C', '1', 'B', '5', '6'], ['4', '1', '0', '5', '7', 'E']] :
        List (List Char)).length :=
  extract_output_lines [['4', '1', '0', 'C', '1', 'B', '5', '6'], ['4', '1', '0', '5', '7', 'E']]
    (by decide)

theorem frame_whole_of_mem (s p q : List Char) (hs : OBD_OUTPUT_DELIMETER ∉ s)
    (hpq : p ++ q = s ++ [OBD_OUTPUT_DELIMETER]) (hp : OBD_OUTPUT_DELIMETER ∈ p) :
    p = s ++ [OBD_OUTPUT_DELIMETER] ∧ q = [] := by
  rcases q with _ | ⟨x, xs⟩
  · rw [List.append_nil] at hpq
    exact ⟨hpq, rfl⟩
  · exfalso
    have hlen : p.length + (x :: xs).length = s.length + 1 := by
      simpa using congrArg List.length hpq
    have hple : p.length ≤ s.length := by
      simp only [List.length_cons] at hlen
      omega
    have hp' : p = s.take p.length := by
      have h1 : (p ++ x :: xs).take p.length = p := List.take_left p (x :: xs)
      rw [hpq, List.take_append_of_le_length hple] at h1
      exact h1.symm
    rw [hp'] at hp
    exact hs (List.mem_of_mem_take hp)

theorem feedAll_empty_chunks (reg : PidRegistry) :
    ∀ (cs : List (List Char)), cs.flatten = [] → feedAll reg [] cs = ([], [])
  | [], _ => rfl
  | c :: cs, h => by
    have hc : c = [] ∧ cs.flatten = [] := by simpa using h
    rcases hc with ⟨rfl, hcs⟩
    have hrest := feedAll_empty_chunks reg cs hcs
    simp [feedAll, feed, hasPrompt, OBD_OUTPUT_DELIMETER, hrest]

theorem feedAll_accum (reg : PidRegistry) (s : List Char)
    (hs : OBD_OUTPUT_DELIMETER ∉ s) :
    ∀ (cs : List (List Char)) (buf : List Char), OBD_OUTPUT_DELIMETER ∉ buf →
      buf ++ cs.flatten = s ++ [OBD_OUTPUT_DELIMETER] →
      (feedAll reg buf cs).2 = frameResults reg (s ++ [OBD_OUTPUT_DELIMETER])
  | [], buf => fun hb hj => by
    exfalso
    rw [List.flatten_nil, List.append_nil] at hj
    subst hj
    exact hb (List.mem_append_right s (by simp))
  | c :: cs, buf => fun hb hj => by
    rw [List.flatten_cons, ← List.append_assoc] at hj
    by_cases hm : OBD_OUTPUT_DELIMETER ∈ buf ++ c
    · obtain ⟨hp, hq⟩ := frame_whole_of_mem s (buf ++ c) cs.flatten hs hj hm
      have hfeed : feed reg buf c = ([], frameResults reg (s ++ [OBD_OUTPUT_DELIMETER])) := by
        rw [feed, if_pos (by rw [hasPrompt]; exact decide_eq_true hm), hp]
      have hrest := feedAll_empty_chunks reg cs hq
      simp [feedAll, hfeed, hrest]
    · have hfeed : feed reg buf c = (buf ++ c, []) := by
        rw [feed, if_neg (by rw [hasPrompt]; simp [hm])]
      have hrest := feedAll_accum reg s hs cs (buf ++ c) hm hj
      simp [feedAll, hfeed, hrest]

/-- C1: for every complete adapter response (delimiter only at its end)
and every partition of it into successive chunks, feeding the chunks one
at a time produces the same `ParseResult` sequence (value, raw,
byteGroups, error fields; the model carries no timestamps) as feeding
the whole response in a single call. -/
theorem feed_chunk_invariance (reg : PidRegistry) (s : List Char)
    (chunks : List (List Char)) (hs : OBD_OUTPUT_DELIMETER ∉ s)
    (hj : chunks.flatten = s ++ [OBD_OUTPUT_DELIMETER]) :
    (feedAll reg [] chunks).2 = (feedAll reg [] [s ++ [OBD_OUTPUT_DELIMETER]]).2 := by
  have h1 := feedAll_accum reg s hs chunks [] (by simp) (by simpa using hj)
  have h2 := feedAll_accum reg s hs [s ++ [OBD_OUTPUT_DELIMETER]] [] (by simp) (by simp)
  rw [h1, h2]

/-- Witness for C1: the response `410C1B56\r\r>` split as `41` then
`0C1B56\r\r>` versus fed whole. -/
theorem feed_chunk_invariance_witness :
    (feedAll sampleRegistry []
      [['4', '1'], ['0', 'C', '1', 'B', '5', '6', '\r', '\r', '>']]).2 =
    (feedAll sampleRegistry []
      [['4', '1', '0', 'C', '1', 'B', '5', '6', '\r', '\r'] ++ [OBD_OUTPUT_DELIMETER]]).2 :=
  feed_chunk_invariance sampleRegistry ['4', '1', '0', 'C', '1', 'B', '5', '6', '\r', '\r']
    [['4', '1'], ['0', 'C', '1', 'B', '5', '6', '\r', '\r', '>']] (by decide) (by decide)
